import Mathlib

set_option maxRecDepth 100000

/-!
Verification development for the `scream` dictionary-attack engine
(`src/main.rs`).  The program loads a list of hex-encoded target digests,
splits a wordlist file into per-CPU byte-range streams, and spawns one
worker per stream; each worker repeatedly checks the shared outstanding
set, pulls a candidate line, hashes it with the selected algorithm
(SHA-256, SHA-512 or MD5) and, on a match against a snapshot of the
shared set, prints the match and removes the matched index from the
shared vector.

Everything below is a shallow embedding of that code: bytes are `Nat`
(values < 256), byte strings are `List Nat`, machine words are `Nat`
reduced modulo `2^32` or `2^64`, and the concurrent search loop is a
small-step interleaving semantics over explicit worker states.
-/

namespace Scream

/-- Modulus for 32-bit machine words. -/
def M32 : Nat := 4294967296

/-- Modulus for 64-bit machine words. -/
def M64 : Nat := 18446744073709551616

/-- Combine two naturals bit by bit with `g` (applied to bits 0/1) over a
fixed number `f` of low bits.  Used to model the machine bitwise ops. -/
def bits2 (g : Nat → Nat → Nat) : Nat → Nat → Nat → Nat
| 0, _, _ => 0
| f + 1, a, b => g (a % 2) (b % 2) + 2 * bits2 g f (a / 2) (b / 2)

/-- Bitwise AND on the low `f` bits. -/
def andB (f a b : Nat) : Nat := bits2 (fun x y => x * y) f a b

/-- Bitwise OR on the low `f` bits. -/
def orB (f a b : Nat) : Nat := bits2 (fun x y => x + y - x * y) f a b

/-- Bitwise XOR on the low `f` bits. -/
def xorB (f a b : Nat) : Nat := bits2 (fun x y => (x + y) % 2) f a b

/-- Bitwise NOT on the low `f` bits. -/
def notB (f a : Nat) : Nat := bits2 (fun x _ => 1 - x) f a 0

/-- Right rotation of an `w`-bit word by `r` bits. -/
def rotr (w r x : Nat) : Nat := x / 2 ^ r + x % 2 ^ r * 2 ^ (w - r)

/-- Left rotation of an `w`-bit word by `s` bits. -/
def rotl (w s x : Nat) : Nat := x % 2 ^ (w - s) * 2 ^ s + x / 2 ^ (w - s)

/-- Logical right shift. -/
def shr (x n : Nat) : Nat := x / 2 ^ n

/-- Big-endian encoding of `x` on `w` bytes. -/
def bytesBE : Nat → Nat → List Nat
| 0, _ => []
| w + 1, x => bytesBE w (x / 256) ++ [x % 256]

/-- Little-endian encoding of `x` on `w` bytes. -/
def bytesLE : Nat → Nat → List Nat
| 0, _ => []
| w + 1, x => x % 256 :: bytesLE w (x / 256)

/-- Big-endian word value of a byte list. -/
def beWord (l : List Nat) : Nat := l.foldl (fun acc b => acc * 256 + b) 0

/-- Little-endian word value of a byte list. -/
def leWord (l : List Nat) : Nat := l.foldr (fun b acc => acc * 256 + b) 0

/-- Fueled chunking of a list into pieces of size `sz`. -/
def chunksF (sz : Nat) : Nat → List Nat → List (List Nat)
| 0, _ => []
| _, [] => []
| f + 1, l => l.take sz :: chunksF sz f (l.drop sz)

/-- Split a list into chunks of size `sz` (last chunk may be shorter). -/
def chunks (sz : Nat) (l : List Nat) : List (List Nat) := chunksF sz l.length l

/-- Number of zero padding bytes in Merkle–Damgard padding: after the
message and the 0x80 byte, pad with zeros so that the length field of
`lenBytes` bytes completes a multiple of `blockSize`. -/
def padCount (blockSize lenBytes L : Nat) : Nat :=
  (blockSize + (blockSize - lenBytes) - (L + 1) % blockSize) % blockSize

/-- Merkle–Damgard padding: message, 0x80, zeros, then the bit length
encoded on `lenBytes` bytes by `enc` (big endian for SHA-2, little
endian for MD5). -/
def padMD (blockSize lenBytes : Nat) (enc : Nat → Nat → List Nat) (msg : List Nat) : List Nat :=
  msg ++ 128 :: (List.replicate (padCount blockSize lenBytes msg.length) 0 ++ enc lenBytes (8 * msg.length))

/-- The eight-word working state of SHA-2. -/
structure S8 where
  a : Nat
  b : Nat
  c : Nat
  d : Nat
  e : Nat
  f : Nat
  g : Nat
  h : Nat

/-- Pointwise modular addition of two SHA-2 states. -/
def addS8 (m : Nat) (x y : S8) : S8 :=
  ⟨(x.a + y.a) % m, (x.b + y.b) % m, (x.c + y.c) % m, (x.d + y.d) % m,
   (x.e + y.e) % m, (x.f + y.f) % m, (x.g + y.g) % m, (x.h + y.h) % m⟩

/-- SHA-2 choice function on `f`-bit words. -/
def ch (f x y z : Nat) : Nat := xorB f (andB f x y) (andB f (notB f x) z)

/-- SHA-2 majority function on `f`-bit words. -/
def maj (f x y z : Nat) : Nat := xorB f (xorB f (andB f x y) (andB f x z)) (andB f y z)

/-- One SHA-2 round, parameterised by word modulus, big sigmas, choice
and majority; `kw` is the round constant paired with the schedule word. -/
def sha2Round (m : Nat) (bS0 bS1 : Nat → Nat) (chF majF : Nat → Nat → Nat → Nat)
    (s : S8) (kw : Nat × Nat) : S8 :=
  let t1 := (s.h + bS1 s.e + chF s.e s.f s.g + kw.1 + kw.2) % m
  let t2 := (bS0 s.a + majF s.a s.b s.c) % m
  ⟨(t1 + t2) % m, s.a, s.b, s.c, (s.d + t1) % m, s.e, s.f, s.g⟩

/-- Message-schedule extension shared by SHA-256 and SHA-512: append
`f` more words, each combining the words 2, 7, 15 and 16 back. -/
def schedExt (s0 s1 : Nat → Nat) (m : Nat) : List Nat → Nat → List Nat
| w, 0 => w
| w, f + 1 =>
  schedExt s0 s1 m
    (w ++ [(s1 (w.getD (w.length - 2) 0) + w.getD (w.length - 7) 0 +
            s0 (w.getD (w.length - 15) 0) + w.getD (w.length - 16) 0) % m]) f

/-- SHA-256 round constants. -/
def sha256K : List Nat := [
  1116352408, 1899447441, 3049323471, 3921009573, 961987163, 1508970993, 2453635748, 2870763221,
  3624381080, 310598401, 607225278, 1426881987, 1925078388, 2162078206, 2614888103, 3248222580,
  3835390401, 4022224774, 264347078, 604807628, 770255983, 1249150122, 1555081692, 1996064986,
  2554220882, 2821834349, 2952996808, 3210313671, 3336571891, 3584528711, 113926993, 338241895,
  666307205, 773529912, 1294757372, 1396182291, 1695183700, 1986661051, 2177026350, 2456956037,
  2730485921, 2820302411, 3259730800, 3345764771, 3516065817, 3600352804, 4094571909, 275423344,
  430227734, 506948616, 659060556, 883997877, 958139571, 1322822218, 1537002063, 1747873779,
  1955562222, 2024104815, 2227730452, 2361852424, 2428436474, 2756734187, 3204031479, 3329325298]

/-- SHA-256 initial state. -/
def h256 : S8 :=
  ⟨1779033703, 3144134277, 1013904242, 2773480762, 1359893119, 2600822924, 528734635, 1541459225⟩

/-- SHA-256 big sigma 0. -/
def bigS0 (x : Nat) : Nat := xorB 32 (xorB 32 (rotr 32 2 x) (rotr 32 13 x)) (rotr 32 22 x)

/-- SHA-256 big sigma 1. -/
def bigS1 (x : Nat) : Nat := xorB 32 (xorB 32 (rotr 32 6 x) (rotr 32 11 x)) (rotr 32 25 x)

/-- SHA-256 small sigma 0. -/
def sig0 (x : Nat) : Nat := xorB 32 (xorB 32 (rotr 32 7 x) (rotr 32 18 x)) (shr x 3)

/-- SHA-256 small sigma 1. -/
def sig1 (x : Nat) : Nat := xorB 32 (xorB 32 (rotr 32 17 x) (rotr 32 19 x)) (shr x 10)

/-- SHA-256 compression of one 64-byte block. -/
def compress256 (st : S8) (block : List Nat) : S8 :=
  let ws := schedExt sig0 sig1 M32 ((chunks 4 block).map beWord) 48
  addS8 M32 st ((sha256K.zip ws).foldl (sha2Round M32 bigS0 bigS1 (ch 32) (maj 32)) st)

/-- SHA-256 digest of a byte string, 32 output bytes, as produced by the
`sha2` crate in `gen_hash`. -/
def sha256 (msg : List Nat) : List Nat :=
  let st := (chunks 64 (padMD 64 8 bytesBE msg)).foldl compress256 h256
  bytesBE 4 st.a ++ bytesBE 4 st.b ++ bytesBE 4 st.c ++ bytesBE 4 st.d ++
  bytesBE 4 st.e ++ bytesBE 4 st.f ++ bytesBE 4 st.g ++ bytesBE 4 st.h

/-- SHA-512 round constants. -/
def sha512K : List Nat := [
  4794697086780616226, 8158064640168781261, 13096744586834688815, 16840607885511220156,
  4131703408338449720, 6480981068601479193, 10538285296894168987, 12329834152419229976,
  15566598209576043074, 1334009975649890238, 2608012711638119052, 6128411473006802146,
  8268148722764581231, 9286055187155687089, 11230858885718282805, 13951009754708518548,
  16472876342353939154, 17275323862435702243, 1135362057144423861, 2597628984639134821,
  3308224258029322869, 5365058923640841347, 6679025012923562964, 8573033837759648693,
  10970295158949994411, 12119686244451234320, 12683024718118986047, 13788192230050041572,
  14330467153632333762, 15395433587784984357, 489312712824947311, 1452737877330783856,
  2861767655752347644, 3322285676063803686, 5560940570517711597, 5996557281743188959,
  7280758554555802590, 8532644243296465576, 9350256976987008742, 10552545826968843579,
  11727347734174303076, 12113106623233404929, 14000437183269869457, 14369950271660146224,
  15101387698204529176, 15463397548674623760, 17586052441742319658, 1182934255886127544,
  1847814050463011016, 2177327727835720531, 2830643537854262169, 3796741975233480872,
  4115178125766777443, 5681478168544905931, 6601373596472566643, 7507060721942968483,
  8399075790359081724, 8693463985226723168, 9568029438360202098, 10144078919501101548,
  10430055236837252648, 11840083180663258601, 13761210420658862357, 14299343276471374635,
  14566680578165727644, 15097957966210449927, 16922976911328602910, 17689382322260857208,
  500013540394364858, 748580250866718886, 1242879168328830382, 1977374033974150939,
  2944078676154940804, 3659926193048069267, 4368137639120453308, 4836135668995329356,
  5532061633213252278, 6448918945643986474, 6902733635092675308, 7801388544844847127]

/-- SHA-512 initial state. -/
def h512 : S8 :=
  ⟨7640891576956012808, 13503953896175478587, 4354685564936845355, 11912009170470909681,
   5840696475078001361, 11170449401992604703, 2270897969802886507, 6620516959819538809⟩

/-- SHA-512 big sigma 0. -/
def bigS0w (x : Nat) : Nat := xorB 64 (xorB 64 (rotr 64 28 x) (rotr 64 34 x)) (rotr 64 39 x)

/-- SHA-512 big sigma 1. -/
def bigS1w (x : Nat) : Nat := xorB 64 (xorB 64 (rotr 64 14 x) (rotr 64 18 x)) (rotr 64 41 x)

/-- SHA-512 small sigma 0. -/
def sig0w (x : Nat) : Nat := xorB 64 (xorB 64 (rotr 64 1 x) (rotr 64 8 x)) (shr x 7)

/-- SHA-512 small sigma 1. -/
def sig1w (x : Nat) : Nat := xorB 64 (xorB 64 (rotr 64 19 x) (rotr 64 61 x)) (shr x 6)

/-- SHA-512 compression of one 128-byte block. -/
def compress512 (st : S8) (block : List Nat) : S8 :=
  let ws := schedExt sig0w sig1w M64 ((chunks 8 block).map beWord) 64
  addS8 M64 st ((sha512K.zip ws).foldl (sha2Round M64 bigS0w bigS1w (ch 64) (maj 64)) st)

/-- SHA-512 digest of a byte string, 64 output bytes, as produced by the
`sha2` crate in `gen_hash`. -/
def sha512 (msg : List Nat) : List Nat :=
  let st := (chunks 128 (padMD 128 16 bytesBE msg)).foldl compress512 h512
  bytesBE 8 st.a ++ bytesBE 8 st.b ++ bytesBE 8 st.c ++ bytesBE 8 st.d ++
  bytesBE 8 st.e ++ bytesBE 8 st.f ++ bytesBE 8 st.g ++ bytesBE 8 st.h

/-- The four-word working state of MD5. -/
structure M4 where
  a : Nat
  b : Nat
  c : Nat
  d : Nat

/-- MD5 round constants. -/
def md5K : List Nat := [
  3614090360, 3905402710, 606105819, 3250441966, 4118548399, 1200080426, 2821735955, 4249261313,
  1770035416, 2336552879, 4294925233, 2304563134, 1804603682, 4254626195, 2792965006, 1236535329,
  4129170786, 3225465664, 643717713, 3921069994, 3593408605, 38016083, 3634488961, 3889429448,
  568446438, 3275163606, 4107603335, 1163531501, 2850285829, 4243563512, 1735328473, 2368359562,
  4294588738, 2272392833, 1839030562, 4259657740, 2763975236, 1272893353, 4139469664, 3200236656,
  681279174, 3936430074, 3572445317, 76029189, 3654602809, 3873151461, 530742520, 3299628645,
  4096336452, 1126891415, 2878612391, 4237533241, 1700485571, 2399980690, 4293915773, 2240044497,
  1873313359, 4264355552, 2734768916, 1309151649, 4149444226, 3174756917, 718787259, 3951481745]

/-- MD5 per-operation left-rotation amounts. -/
def md5S : List Nat := [
  7, 12, 17, 22, 7, 12, 17, 22, 7, 12, 17, 22, 7, 12, 17, 22,
  5, 9, 14, 20, 5, 9, 14, 20, 5, 9, 14, 20, 5, 9, 14, 20,
  4, 11, 16, 23, 4, 11, 16, 23, 4, 11, 16, 23, 4, 11, 16, 23,
  6, 10, 15, 21, 6, 10, 15, 21, 6, 10, 15, 21, 6, 10, 15, 21]

/-- MD5 initial state. -/
def md5Init : M4 := ⟨1732584193, 4023233417, 2562383102, 271733878⟩

/-- One MD5 operation, for operation index `i` over the 16 block words `m`. -/
def md5Round (m : List Nat) (s : M4) (i : Nat) : M4 :=
  let fg :=
    if i < 16 then (orB 32 (andB 32 s.b s.c) (andB 32 (notB 32 s.b) s.d), i)
    else if i < 32 then (orB 32 (andB 32 s.d s.b) (andB 32 (notB 32 s.d) s.c), (5 * i + 1) % 16)
    else if i < 48 then (xorB 32 (xorB 32 s.b s.c) s.d, (3 * i + 5) % 16)
    else (xorB 32 s.c (orB 32 s.b (notB 32 s.d)), (7 * i) % 16)
  let x := (s.a + fg.1 + md5K.getD i 0 + m.getD fg.2 0) % M32
  ⟨s.d, (s.b + rotl 32 (md5S.getD i 0) x) % M32, s.b, s.c⟩

/-- MD5 compression of one 64-byte block. -/
def compressMD5 (st : M4) (block : List Nat) : M4 :=
  let m := (chunks 4 block).map leWord
  let r := (List.range 64).foldl (md5Round m) st
  ⟨(st.a + r.a) % M32, (st.b + r.b) % M32, (st.c + r.c) % M32, (st.d + r.d) % M32⟩

/-- MD5 digest of a byte string, 16 output bytes, as produced by the
`md5` crate in `gen_hash`. -/
def md5 (msg : List Nat) : List Nat :=
  let st := (chunks 64 (padMD 64 8 bytesLE msg)).foldl compressMD5 md5Init
  bytesLE 4 st.a ++ bytesLE 4 st.b ++ bytesLE 4 st.c ++ bytesLE 4 st.d

/-- The selectable digest algorithm, as in the `HashMode` enum. -/
inductive HashMode where
| Sha256
| Sha512
| MD5
deriving DecidableEq

/-- Model of `gen_hash`: dispatch the selected algorithm over the raw
bytes of a candidate and return the digest bytes. -/
def gen_hash (data : List Nat) (hash_mode : HashMode) : List Nat :=
  match hash_mode with
  | .Sha256 => sha256 data
  | .Sha512 => sha512 data
  | .MD5 => md5 data

/-- One hexadecimal digit, upper or lower case, as in the `hex` crate. -/
def hexDigit (c : Nat) : Option Nat :=
  if 48 ≤ c ∧ c ≤ 57 then some (c - 48)
  else if 97 ≤ c ∧ c ≤ 102 then some (c - 87)
  else if 65 ≤ c ∧ c ≤ 70 then some (c - 55)
  else none

/-- Model of `hex::decode` on the bytes of one input line: fails on odd
length or on any non-hex character. -/
def hexDecode : List Nat → Option (List Nat)
| [] => some []
| [_] => none
| c1 :: c2 :: rest =>
  match hexDigit c1, hexDigit c2, hexDecode rest with
  | some hi, some lo, some bs => some ((16 * hi + lo) :: bs)
  | _, _, _ => none

/-- Decode every line of the hashes file; any bad line makes the whole
load fail (the source unwraps each `hex::decode`, so a bad line aborts
inside `read_hashes`, before any search starts). -/
def decodeAll : List (List Nat) → Option (List (List Nat))
| [] => some []
| l :: ls =>
  match hexDecode l, decodeAll ls with
  | some d, some ds => some (d :: ds)
  | _, _ => none

/-- Model of `read_hashes`: decode all lines, then collect into a set
(the source collects into a `HashSet`, which deduplicates; the model
keeps one occurrence of each digest via `List.dedup`). -/
def read_hashes (lines : List (List Nat)) : Option (List (List Nat)) :=
  (decodeAll lines).map List.dedup

/-- Raw segment of bytes up to and including the first newline (byte
10), together with the remaining bytes. -/
def takeToNL : List Nat → List Nat × List Nat
| [] => ([], [])
| b :: bs =>
  if b = 10 then ([10], bs)
  else
    let p := takeToNL bs
    (b :: p.1, p.2)

/-- Drop one trailing carriage return (byte 13), if present. -/
def stripCR (l : List Nat) : List Nat := if l.getLast? = some 13 then l.dropLast else l

/-- What `Lines` yields for one raw segment: a trailing newline is
removed together with a carriage return that precedes it; a final
segment with no newline is yielded as it is. -/
def stripSeg (seg : List Nat) : List Nat :=
  if seg.getLast? = some 10 then stripCR seg.dropLast else seg

/-- Model of one `read_line` on a `BufReader` with buffer capacity
`cap` positioned at byte `pos`: a zero-capacity buffer makes
`fill_buf` return an empty slice, so the read reports end of file at
once; otherwise the next line and the new position are returned, or
`none` at end of file. -/
def readLineAt (cap : Nat) (content : List Nat) (pos : Nat) : Option (List Nat × Nat) :=
  if cap = 0 then none
  else if content.length ≤ pos then none
  else
    let seg := (takeToNL (content.drop pos)).1
    some (stripSeg seg, pos + seg.length)

/-- All lines produced from position `pos` on, with fuel `f` (any fuel
of at least the number of remaining bytes plus one is exact). -/
def linesFromAux (cap : Nat) (content : List Nat) : Nat → Nat → List (List Nat)
| _, 0 => []
| pos, f + 1 =>
  match readLineAt cap content pos with
  | none => []
  | some (l, pos2) => l :: linesFromAux cap content pos2 f

/-- Model of the stream built for worker `i` in `read_wordlist`: a
`BufReader` with capacity `S / n` over the file, sought to byte
`i * (S / n)`, then read line by line until the reader is exhausted. -/
def partitionLines (content : List Nat) (n i : Nat) : List (List Nat) :=
  let spn := content.length / n
  linesFromAux spn content (i * spn) (content.length + 1)

/-- Model of `read_wordlist`: one stream per worker, `n` workers. -/
def read_wordlist (content : List Nat) (n : Nat) : List (List (List Nat)) :=
  (List.range n).map (partitionLines content n)

/-- Reference line splitter, written as a direct accumulator scan over
the bytes: candidate lines are newline-separated, a carriage return
before a newline is dropped, and a non-empty final segment without a
newline is a line of its own. -/
def splitLinesAcc : List Nat → List Nat → List (List Nat)
| acc, [] => if acc.isEmpty then [] else [acc.reverse]
| acc, b :: bs =>
  if b = 10 then stripCR acc.reverse :: splitLinesAcc [] bs
  else splitLinesAcc (b :: acc) bs

/-- The candidate lines of a byte string. -/
def splitLines (c : List Nat) : List (List Nat) := splitLinesAcc [] c

/-- Program counter of one worker task, one constructor per atomic
access to the shared state in the loop body of `main`:
`checkLen` is the `hashes.read().len() == 0` test, `fetch` pulls the
next candidate from the worker's own stream, `snap w` clones the
shared vector and scans it for a digest equal to `gen_hash` of `w`
(printing the match), `removeAt idx` is the `hashes.write().remove(idx)`
call, and `done` is a finished task. -/
inductive WState where
| checkLen
| fetch
| snap (w : List Nat)
| removeAt (idx : Nat)
| done
deriving DecidableEq

/-- One spawned task: its program counter and its remaining stream. -/
structure Worker where
  st : WState
  stream : List (List Nat)
deriving DecidableEq

/-- Global state of the run: the shared outstanding vector, the
workers, the match lines printed so far (digest bytes as printed from
the snapshot, candidate), and whether some `Vec::remove` panicked. -/
structure Config where
  hashes : List (List Nat)
  workers : List Worker
  events : List (List Nat × List Nat)
  panicked : Bool
deriving DecidableEq

/-- Index of the first digest in `hs` equal to `gen_hash password`,
mirroring the `for (hash_idx, hash) in h.iter().enumerate()` scan with
its `==` on raw byte vectors. -/
def firstMatch (password : List Nat) (mode : HashMode) : List (List Nat) → Option Nat
| [] => none
| t :: ts =>
  if gen_hash password mode = t then some 0
  else (firstMatch password mode ts).map (· + 1)

/-- Effect of one atomic step of a worker on the shared vector:
returns the new worker, the new shared vector, the printed match
lines, and whether the step panicked (remove at a stale index past the
end of the shrunk vector). -/
def applyWorker (mode : HashMode) (hs : List (List Nat)) (w : Worker) :
    Worker × List (List Nat) × List (List Nat × List Nat) × Bool :=
  match w.st with
  | .checkLen =>
    if hs.length = 0 then (⟨.done, w.stream⟩, hs, [], false)
    else (⟨.fetch, w.stream⟩, hs, [], false)
  | .fetch =>
    match w.stream with
    | [] => (⟨.checkLen, []⟩, hs, [], false)
    | c :: rest => (⟨.snap c, rest⟩, hs, [], false)
  | .snap c =>
    match firstMatch c mode hs with
    | none => (⟨.checkLen, w.stream⟩, hs, [], false)
    | some idx => (⟨.removeAt idx, w.stream⟩, hs, [(hs.getD idx [], c)], false)
  | .removeAt idx =>
    if idx < hs.length then (⟨.checkLen, w.stream⟩, hs.eraseIdx idx, [], false)
    else (⟨.checkLen, w.stream⟩, hs, [], true)
  | .done => (w, hs, [], false)

/-- Scheduler step: let worker `i` perform its next atomic action.  A
panic aborts the whole program, so nothing moves afterwards. -/
def stepAt (mode : HashMode) (cfg : Config) (i : Nat) : Config :=
  if cfg.panicked then cfg
  else
    match cfg.workers[i]? with
    | none => cfg
    | some w =>
      let r := applyWorker mode cfg.hashes w
      ⟨r.2.1, cfg.workers.set i r.1, cfg.events ++ r.2.2.1, r.2.2.2⟩

/-- A run is a fold of scheduler steps over a schedule, one worker
index per step. -/
def run (mode : HashMode) (cfg : Config) (sched : List Nat) : Config :=
  sched.foldl (stepAt mode) cfg

/-- Initial configuration: the loaded target vector and one worker per
stream, each at the top of its loop. -/
def initConfig (hs : List (List Nat)) (streams : List (List (List Nat))) : Config :=
  ⟨hs, streams.map (fun s => ⟨.checkLen, s⟩), [], false⟩

/-- `try_join_all` completes exactly when every task has finished. -/
def allDone (cfg : Config) : Bool := cfg.workers.all (fun w => w.st == .done)

/-- The final report of `main`: after the join, the digests still in
the vector are printed as not found; nothing is printed when the
vector is empty. -/
def finalSummary (cfg : Config) : Option (List (List Nat)) :=
  if cfg.hashes.length > 0 then some cfg.hashes else none

/-- End-to-end model of `main` for a given schedule: load the target
digests (`none` models the panic on a malformed hex line, which
happens before the wordlist is opened and before any hashing), build
the worker streams, and run the search. -/
def mainModel (hashLines : List (List Nat)) (mode : HashMode) (content : List Nat) (n : Nat)
    (sched : List Nat) : Option Config :=
  match read_hashes hashLines with
  | none => none
  | some ts => some (run mode (initConfig ts (read_wordlist content n)) sched)

/-- MD5 digest of the one-byte candidate `w` (byte 119). -/
def md5w : List Nat :=
  [241, 41, 1, 134, 165, 208, 177, 206, 171, 39, 244, 231, 124, 12, 93, 104]

/-- The lowercase hex spelling of `md5w`, as one line of a hashes file. -/
def md5wHex : List Nat :=
  [102, 49, 50, 57, 48, 49, 56, 54, 97, 53, 100, 48, 98, 49, 99, 101,
   97, 98, 50, 55, 102, 52, 101, 55, 55, 99, 48, 99, 53, 100, 54, 56]

lemma length_bytesBE (w x : Nat) : (bytesBE w x).length = w := by
  induction w generalizing x with
  | zero => simp [bytesBE]
  | succ w ih => simp [bytesBE, ih]

lemma length_bytesLE (w x : Nat) : (bytesLE w x).length = w := by
  induction w generalizing x with
  | zero => simp [bytesLE]
  | succ w ih => simp [bytesLE, ih]

lemma sha256_length (msg : List Nat) : (sha256 msg).length = 32 := by
  simp [sha256, length_bytesBE]

lemma sha512_length (msg : List Nat) : (sha512 msg).length = 64 := by
  simp [sha512, length_bytesBE]

lemma md5_length (msg : List Nat) : (md5 msg).length = 16 := by
  simp [md5, length_bytesLE]

lemma firstMatch_none_iff (p : List Nat) (mode : HashMode) (hs : List (List Nat)) :
    firstMatch p mode hs = none ↔ ∀ t ∈ hs, gen_hash p mode ≠ t := by
  induction hs with
  | nil => simp [firstMatch]
  | cons t ts ih =>
    by_cases h : gen_hash p mode = t
    · simp [firstMatch, h]
    · simp [firstMatch, h, Option.map_eq_none', ih]

lemma firstMatch_some_lt (p : List Nat) (mode : HashMode) (hs : List (List Nat)) (i : Nat)
    (h : firstMatch p mode hs = some i) : i < hs.length := by
  induction hs generalizing i with
  | nil => simp [firstMatch] at h
  | cons t ts ih =>
    by_cases hg : gen_hash p mode = t
    · simp [firstMatch, hg] at h
      simp [← h]
    · simp only [firstMatch, if_neg hg, Option.map_eq_some'] at h
      obtain ⟨j, hj, rfl⟩ := h
      have := ih j hj
      simp only [List.length_cons]
      omega

lemma firstMatch_some_getD (p : List Nat) (mode : HashMode) (hs : List (List Nat)) (i : Nat)
    (h : firstMatch p mode hs = some i) : hs.getD i [] = gen_hash p mode := by
  induction hs generalizing i with
  | nil => simp [firstMatch] at h
  | cons t ts ih =>
    by_cases hg : gen_hash p mode = t
    · simp [firstMatch, hg] at h
      subst h
      simpa using hg.symm
    · simp only [firstMatch, if_neg hg, Option.map_eq_some'] at h
      obtain ⟨j, hj, rfl⟩ := h
      simpa using ih j hj

/-- C8: `gen_hash` is a total function of its input bytes and mode (it
is a plain function of the embedding, hence also deterministic, with
no failure value); its output length is fixed by the algorithm alone:
32 bytes for SHA-256, 64 for SHA-512, 16 for MD5.  The worker's scan
matches a candidate against a target exactly when the raw digest byte
sequences are equal, never via hex strings: a found index points at a
stored digest equal as a byte list to `gen_hash` of the candidate, and
no index is found exactly when no stored digest is byte-equal. -/
theorem C8_hash_total :
    (∀ data, (gen_hash data .Sha256).length = 32) ∧
    (∀ data, (gen_hash data .Sha512).length = 64) ∧
    (∀ data, (gen_hash data .MD5).length = 16) ∧
    (∀ password mode hs i, firstMatch password mode hs = some i →
      hs.getD i [] = gen_hash password mode) ∧
    (∀ password mode hs, firstMatch password mode hs = none ↔
      ∀ t ∈ hs, gen_hash password mode ≠ t) :=
  ⟨fun data => sha256_length data, fun data => sha512_length data,
   fun data => md5_length data, firstMatch_some_getD, firstMatch_none_iff⟩

/-- Witness for C8 at concrete inputs: the empty message in all three
modes, and the scan finding the MD5 digest of `w` by byte equality. -/
theorem C8_hash_total_witness :
    (gen_hash [] .Sha256).length = 32 ∧
    (gen_hash [] .Sha512).length = 64 ∧
    (gen_hash [] .MD5).length = 16 ∧
    [md5w].getD 0 [] = gen_hash [119] .MD5 ∧
    firstMatch [119] .MD5 [md5w] = some 0 :=
  ⟨C8_hash_total.1 [], C8_hash_total.2.1 [], C8_hash_total.2.2.1 [],
   C8_hash_total.2.2.2.1 [119] .MD5 [md5w] 0 (by decide), by decide⟩

lemma decodeAll_mem (ls : List (List Nat)) (ds : List (List Nat))
    (h : decodeAll ls = some ds) (d : List Nat) :
    d ∈ ds ↔ ∃ l ∈ ls, hexDecode l = some d := by
  induction ls generalizing ds with
  | nil =>
    simp [decodeAll] at h
    subst h
    simp
  | cons l ls ih =>
    simp only [decodeAll] at h
    cases hl : hexDecode l with
    | none => rw [hl] at h; exact absurd h (by simp)
    | some d0 =>
      cases hls : decodeAll ls with
      | none => rw [hl, hls] at h; exact absurd h (by simp)
      | some ds0 =>
        rw [hl, hls] at h
        simp only [Option.some.injEq] at h
        subst h
        simp only [List.mem_cons, ih ds0 hls]
        constructor
        · rintro (rfl | ⟨l2, hm, hd⟩)
          · exact ⟨l, Or.inl rfl, hl⟩
          · exact ⟨l2, Or.inr hm, hd⟩
        · rintro ⟨l2, (rfl | hm), hd⟩
          · left; rw [hl] at hd; exact (Option.some.injEq _ _ ▸ hd).symm ▸ rfl
          · right; exact ⟨l2, hm, hd⟩

lemma decodeAll_replicate (line : List Nat) (d : List Nat) (k : Nat)
    (h : hexDecode line = some d) :
    decodeAll (List.replicate k line) = some (List.replicate k d) := by
  induction k with
  | zero => simp [decodeAll]
  | succ k ih => simp [List.replicate_succ, decodeAll, h, ih]

lemma dedup_replicate (d : List Nat) (k : Nat) (hk : 1 ≤ k) :
    (List.replicate k d).dedup = [d] := by
  induction k with
  | zero => omega
  | succ k ih =>
    rcases Nat.eq_or_lt_of_le hk with h1 | h2
    · simp [← h1]
    · have hk1 : 1 ≤ k := by omega
      rw [List.replicate_succ, List.dedup_cons_of_mem (by simp [List.mem_replicate]; omega),
        ih hk1]

lemma count_one_of_nodup_mem (res : List (List Nat)) (d : List Nat)
    (hn : res.Nodup) (hm : d ∈ res) : res.count d = 1 := by
  induction res with
  | nil => simp at hm
  | cons a t ih =>
    rw [List.count_cons]
    rcases List.mem_cons.1 hm with rfl | hm2
    · have h1 : d ∉ t := (List.nodup_cons.1 hn).1
      simp [List.count_eq_zero.2 h1]
    · have hne : d ≠ a := by rintro rfl; exact (List.nodup_cons.1 hn).1 hm2
      simp [ih (List.nodup_cons.1 hn).2 hm2, hne, Ne.symm hne]

/-- C6: loading deduplicates.  In any successfully loaded target file,
a digest decoded from some line occurs exactly once in the loaded set;
in particular a file that is one digest line repeated `k ≥ 1` times
loads to the one-element set holding that digest. -/
theorem C6_dedup :
    (∀ lines res d, read_hashes lines = some res →
      (∃ l ∈ lines, hexDecode l = some d) → res.count d = 1) ∧
    (∀ line d k res, hexDecode line = some d → 1 ≤ k →
      read_hashes (List.replicate k line) = some res → res = [d]) := by
  constructor
  · intro lines res d hload hmem
    simp only [read_hashes, Option.map_eq_some'] at hload
    obtain ⟨ds, hds, rfl⟩ := hload
    have hd : d ∈ ds := (decodeAll_mem lines ds hds d).2 hmem
    exact count_one_of_nodup_mem ds.dedup d ds.nodup_dedup (List.mem_dedup.2 hd)
  · intro line d k res hline hk hload
    simp only [read_hashes, decodeAll_replicate line d k hline, Option.map_some',
      Option.some.injEq] at hload
    rw [← hload, dedup_replicate d k hk]

/-- Witness for C6: the digest line `aa` read among others loads with
count one, and the line repeated three times loads to one digest. -/
theorem C6_dedup_witness :
    (read_hashes [[97, 97], [98, 98], [97, 97]] = some [[187], [170]] ∧
      [[187], [170]].count [170] = 1) ∧
    (hexDecode [97, 97] = some [170] ∧ 1 ≤ 3 ∧
      read_hashes (List.replicate 3 [97, 97]) = some [[170]] ∧
      ([[170]] : List (List Nat)) = [[170]]) :=
  ⟨⟨by decide, C6_dedup.1 [[97, 97], [98, 98], [97, 97]] [[187], [170]] [170] (by decide)
      ⟨[97, 97], by decide⟩⟩,
   ⟨by decide, by decide, by decide,
    C6_dedup.2 [97, 97] [170] 3 [[170]] (by decide) (by decide) (by decide)⟩⟩

lemma decodeAll_none (ls : List (List Nat)) (h : ∃ l ∈ ls, hexDecode l = none) :
    decodeAll ls = none := by
  induction ls with
  | nil => simp at h
  | cons l ls ih =>
    obtain ⟨l2, hm, hd⟩ := h
    rcases List.mem_cons.1 hm with rfl | hm2
    · simp [decodeAll, hd]
    · rw [decodeAll]
      cases hexDecode l with
      | none => rfl
      | some d => rw [ih ⟨l2, hm2, hd⟩]

/-- C7: a target input with a line that is not valid hex fails at load
time: `read_hashes` itself yields the failure (the model of the panic
inside its `unwrap`), and the whole run produces nothing for any
algorithm, wordlist, worker count and schedule; no candidate is ever
hashed and no search step runs. -/
theorem C7_load_failure :
    ∀ hashLines, (∃ l ∈ hashLines, hexDecode l = none) →
      read_hashes hashLines = none ∧
      ∀ mode content n sched, mainModel hashLines mode content n sched = none := by
  intro hashLines hbad
  have h : read_hashes hashLines = none := by
    simp [read_hashes, decodeAll_none hashLines hbad]
  exact ⟨h, fun mode content n sched => by simp [mainModel, h]⟩

/-- Witness for C7: the line `gg` is not hex, so the load and the whole
run fail before any search. -/
theorem C7_load_failure_witness :
    (∃ l ∈ [[103, 103]], hexDecode l = none) ∧
    read_hashes [[103, 103]] = none ∧
    mainModel [[103, 103]] .MD5 [119, 10] 1 [0, 0, 0] = none :=
  ⟨⟨[103, 103], by decide⟩,
   (C7_load_failure [[103, 103]] ⟨[103, 103], by decide⟩).1,
   (C7_load_failure [[103, 103]] ⟨[103, 103], by decide⟩).2 .MD5 [119, 10] 1 [0, 0, 0]⟩

lemma takeToNL_append_nl (bs rest : List Nat) (h : (10 : Nat) ∉ bs) :
    takeToNL (bs ++ 10 :: rest) = (bs ++ [10], rest) := by
  induction bs with
  | nil => simp [takeToNL]
  | cons b bs ih =>
    have hb : ¬b = 10 := fun hb => h (by simp [hb])
    have hm : (10 : Nat) ∉ bs := fun hm => h (by simp [hm])
    simp [takeToNL, hb, ih hm]

lemma takeToNL_no_nl (d : List Nat) (h : (10 : Nat) ∉ d) : takeToNL d = (d, []) := by
  induction d with
  | nil => rfl
  | cons b bs ih =>
    have hb : ¬b = 10 := fun hb => h (by simp [hb])
    have hm : (10 : Nat) ∉ bs := fun hm => h (by simp [hm])
    simp [takeToNL, hb, ih hm]

lemma nl_split (d : List Nat) :
    (∃ bs rest, d = bs ++ 10 :: rest ∧ (10 : Nat) ∉ bs) ∨ (10 : Nat) ∉ d := by
  induction d with
  | nil => right; simp
  | cons b bs ih =>
    by_cases hb : b = 10
    · exact Or.inl ⟨[], bs, by simp [hb], by simp⟩
    · rcases ih with ⟨bs2, rest, heq, hnot⟩ | hno
      · exact Or.inl ⟨b :: bs2, rest, by simp [heq], by
          simp only [List.mem_cons, not_or]
          exact ⟨fun h10 => hb h10.symm, hnot⟩⟩
      · right
        simp only [List.mem_cons, not_or]
        exact ⟨fun h10 => hb h10.symm, hno⟩

lemma splitAcc_nl (bs : List Nat) (h : (10 : Nat) ∉ bs) : ∀ (acc rest : List Nat),
    splitLinesAcc acc (bs ++ 10 :: rest) = stripCR (acc.reverse ++ bs) :: splitLinesAcc [] rest := by
  induction bs with
  | nil => intro acc rest; simp [splitLinesAcc]
  | cons b bs ih =>
    intro acc rest
    have hb : ¬b = 10 := fun hb => h (by simp [hb])
    have hm : (10 : Nat) ∉ bs := fun hm => h (by simp [hm])
    simp only [List.cons_append, splitLinesAcc, if_neg hb, List.append_eq]
    rw [ih hm (b :: acc) rest]
    simp

lemma splitAcc_no_nl (bs : List Nat) (h : (10 : Nat) ∉ bs) : ∀ acc : List Nat,
    acc.reverse ++ bs ≠ [] → splitLinesAcc acc bs = [acc.reverse ++ bs] := by
  induction bs with
  | nil =>
    intro acc hne
    have hacc : acc ≠ [] := by
      intro h0
      subst h0
      simp at hne
    have : acc.isEmpty = false := by
      cases acc with
      | nil => exact absurd rfl hacc
      | cons a t => rfl
    simp [splitLinesAcc, this]
  | cons b bs ih =>
    intro acc hne
    have hb : ¬b = 10 := fun hb => h (by simp [hb])
    have hm : (10 : Nat) ∉ bs := fun hm => h (by simp [hm])
    simp only [splitLinesAcc, if_neg hb]
    rw [ih hm (b :: acc) (by simp)]
    simp

lemma stripSeg_concat_nl (bs : List Nat) : stripSeg (bs ++ [10]) = stripCR bs := by
  simp [stripSeg]

lemma mem_of_getLast?_eq (l : List Nat) (a : Nat) (h : l.getLast? = some a) : a ∈ l := by
  induction l with
  | nil => simp at h
  | cons b t ih =>
    cases t with
    | nil =>
      simp only [List.getLast?_singleton, Option.some.injEq] at h
      simp [h]
    | cons c u =>
      rw [List.getLast?_cons_cons] at h
      exact List.mem_cons.2 (Or.inr (ih h))

lemma stripSeg_no_nl (d : List Nat) (h : (10 : Nat) ∉ d) : stripSeg d = d := by
  unfold stripSeg
  rw [if_neg]
  intro hl
  exact h (mem_of_getLast?_eq d 10 hl)

lemma linesFromAux_eof (cap : Nat) (content : List Nat) (pos fuel : Nat)
    (h : content.length ≤ pos) : linesFromAux cap content pos fuel = [] := by
  cases fuel with
  | zero => rfl
  | succ f => simp [linesFromAux, readLineAt, h]

lemma readLineAt_pos (cap : Nat) (content : List Nat) (pos : Nat)
    (hcap : ¬cap = 0) (hpos : pos < content.length) :
    readLineAt cap content pos =
      some (stripSeg (takeToNL (content.drop pos)).1, pos + (takeToNL (content.drop pos)).1.length) := by
  simp [readLineAt, hcap, Nat.not_le.2 hpos]

/-- The buffered line reader, started at byte `pos` with a non-empty
buffer and enough fuel, produces exactly the lines of the byte suffix
from `pos` to end of file. -/
lemma linesFromAux_eq (cap : Nat) (content : List Nat) (hcap : ¬cap = 0) :
    ∀ fuel pos, content.length - pos < fuel →
      linesFromAux cap content pos fuel = splitLines (content.drop pos) := by
  intro fuel
  induction fuel with
  | zero => intro pos h; exact absurd h (Nat.not_lt_zero _)
  | succ f ih =>
    intro pos hfuel
    by_cases hpos : content.length ≤ pos
    · rw [linesFromAux_eof cap content pos _ hpos, List.drop_eq_nil_of_le hpos]
      rfl
    · have hpos2 : pos < content.length := Nat.not_le.1 hpos
      have hdlen : (content.drop pos).length = content.length - pos := List.length_drop pos content
      rcases nl_split (content.drop pos) with ⟨bs, rest, hsplit, hnot⟩ | hno
      · have htake : takeToNL (content.drop pos) = (bs ++ [10], rest) := by
          rw [hsplit]; exact takeToNL_append_nl bs rest hnot
        have hrest : content.drop (pos + (bs.length + 1)) = rest := by
          have h1 : content.drop (pos + (bs.length + 1)) =
              (content.drop pos).drop (bs.length + 1) := by
            rw [List.drop_drop]
          rw [h1, hsplit, show bs ++ 10 :: rest = (bs ++ [10]) ++ rest by simp,
            show bs.length + 1 = (bs ++ [10]).length by simp, List.drop_left]
        have hlen2 : (content.drop pos).length = bs.length + 1 + rest.length := by
          rw [hsplit]
          simp
          omega
        simp only [linesFromAux, readLineAt_pos cap content pos hcap hpos2, htake]
        have hlen3 : (bs ++ [10]).length = bs.length + 1 := by simp
        rw [hlen3]
        have hf : content.length - (pos + (bs.length + 1)) < f := by omega
        rw [ih (pos + (bs.length + 1)) hf, hrest, stripSeg_concat_nl]
        rw [show splitLines (content.drop pos) = splitLinesAcc [] (content.drop pos) from rfl,
          hsplit, splitAcc_nl bs hnot [] rest]
        simp [splitLines]
      · have htake : takeToNL (content.drop pos) = (content.drop pos, []) :=
          takeToNL_no_nl (content.drop pos) hno
        have hdne : content.drop pos ≠ [] := by
          intro h0
          rw [h0] at hdlen
          simp at hdlen
          omega
        simp only [linesFromAux, readLineAt_pos cap content pos hcap hpos2, htake]
        rw [stripSeg_no_nl (content.drop pos) hno]
        rw [linesFromAux_eof cap content _ f (by omega)]
        rw [show splitLines (content.drop pos) = splitLinesAcc [] (content.drop pos) from rfl,
          splitAcc_no_nl (content.drop pos) hno [] (by simpa using hdne)]
        simp

/-- Worker `i`'s stream equals the lines of the file suffix starting
at its seek offset, whenever the per-worker byte budget `S / n` is at
least one. -/
lemma partitionLines_eq (content : List Nat) (n i : Nat) (h : 1 ≤ content.length / n) :
    partitionLines content n i = splitLines (content.drop (i * (content.length / n))) := by
  unfold partitionLines
  exact linesFromAux_eq (content.length / n) content (by omega) (content.length + 1)
    (i * (content.length / n)) (by omega)

/-- C5, counterexample to the claim as stated: a one-byte file with two
workers has `S / N = 0`; worker 0 starts at offset 0 but reads nothing,
instead of reading line by line to end of file. -/
theorem C5_counterexample :
    partitionLines [97] 2 0 = [] ∧
    splitLines (([97] : List Nat).drop (0 * (([97] : List Nat).length / 2))) = [[97]] ∧
    partitionLines [97] 2 0 ≠
      splitLines (([97] : List Nat).drop (0 * (([97] : List Nat).length / 2))) := by
  decide

/-- C5, amended: whenever `S / N ≥ 1`, worker `i` reads exactly the
lines of the byte suffix starting at offset `i * (S / N)` and running
to end of file (not to the next partition's start); when `S / N = 0`
(in particular for the empty file) every worker yields zero
candidates, because the reader's buffer capacity `S / N` is zero. -/
theorem C5_offset_eof :
    (∀ content n i, 1 ≤ content.length / n →
      partitionLines content n i = splitLines (content.drop (i * (content.length / n)))) ∧
    (∀ n i : Nat, partitionLines [] n i = []) := by
  constructor
  · exact partitionLines_eq
  · intro n i
    simp [partitionLines, Nat.zero_div, linesFromAux, readLineAt]

/-- Witness for C5 at a concrete input: a single worker on the file
`ab\n` reads the whole file; the empty file yields no candidates. -/
theorem C5_offset_eof_witness :
    (1 ≤ ([97, 98, 10] : List Nat).length / 1 ∧
      partitionLines [97, 98, 10] 1 0 =
        splitLines (([97, 98, 10] : List Nat).drop (0 * (([97, 98, 10] : List Nat).length / 1)))) ∧
    partitionLines [] 5 2 = [] :=
  ⟨⟨by decide, C5_offset_eof.1 [97, 98, 10] 1 0 (by decide)⟩, C5_offset_eof.2 5 2⟩

/-- C10, counterexample to the claim as stated: for the two-byte file
`ab` with three workers, `S / N = 0` and every worker starts at byte 0,
but no worker reads the wordlist at all: the reader is built with a
zero-capacity buffer, so `fill_buf` yields an empty slice and the line
stream reports end of file at once, yielding zero candidates instead of
the entire file. -/
theorem C10_counterexample :
    ([97, 98] : List Nat).length < 3 ∧
    ([97, 98] : List Nat).length / 3 = 0 ∧
    splitLines [97, 98] = [[97, 98]] ∧
    partitionLines [97, 98] 3 0 = [] ∧
    partitionLines [97, 98] 3 0 ≠ splitLines [97, 98] := by
  decide

/-- C10, amended: if `S < N` then `S / N = 0` and every worker's start
offset `i * (S / N)` is 0, but each worker reads zero candidates (not
the entire wordlist): the `BufReader` is constructed with capacity
`S / N = 0`, which makes every read report end of file immediately. -/
theorem C10_small_file :
    ∀ content : List Nat, ∀ n, content.length < n →
      content.length / n = 0 ∧
      ∀ i, i * (content.length / n) = 0 ∧ partitionLines content n i = [] := by
  intro content n h
  have hdiv : content.length / n = 0 := Nat.div_eq_of_lt h
  refine ⟨hdiv, fun i => ⟨by simp [hdiv], ?_⟩⟩
  simp [partitionLines, hdiv, linesFromAux, readLineAt]

/-- Witness for C10: one byte, two workers. -/
theorem C10_small_file_witness :
    ([99] : List Nat).length < 2 ∧ ([99] : List Nat).length / 2 = 0 ∧
    1 * (([99] : List Nat).length / 2) = 0 ∧ partitionLines [99] 2 1 = [] :=
  ⟨by decide, (C10_small_file [99] 2 (by decide)).1,
   ((C10_small_file [99] 2 (by decide)).2 1).1, ((C10_small_file [99] 2 (by decide)).2 1).2⟩

/-- C4, counterexample to the claim as stated: on the file `ab\ncd\n`
with two workers, the candidate `cd` is produced by worker 0 and again
by worker 1 — the byte-range slices overlap, they are not a partition
of the candidate set. -/
theorem C4_counterexample :
    read_wordlist [97, 98, 10, 99, 100, 10] 2 = [[[97, 98], [99, 100]], [[99, 100]]] ∧
    [99, 100] ∈ partitionLines [97, 98, 10, 99, 100, 10] 2 0 ∧
    [99, 100] ∈ partitionLines [97, 98, 10, 99, 100, 10] 2 1 ∧ (0 : Nat) ≠ 1 := by
  decide

/-- C4, amended: the per-worker slices are not non-overlapping (every
worker reads from its start offset to end of file), but completeness
holds whenever `S / N ≥ 1`: worker 0 starts at offset 0 and reads the
entire file, so every candidate of the file is consumed by some
worker. -/
theorem C4_overlap_completeness :
    ∀ content : List Nat, ∀ n, 0 < n → 1 ≤ content.length / n →
      partitionLines content n 0 = splitLines content ∧
      ∀ l ∈ splitLines content, ∃ i, i < n ∧ l ∈ partitionLines content n i := by
  intro content n hn hspn
  have h0 : partitionLines content n 0 = splitLines content := by
    rw [partitionLines_eq content n 0 hspn]
    simp
  exact ⟨h0, fun l hl => ⟨0, hn, h0 ▸ hl⟩⟩

/-- Witness for C4: a single worker on `a\n` covers the file. -/
theorem C4_overlap_completeness_witness :
    (0 < 1 ∧ 1 ≤ ([97, 10] : List Nat).length / 1) ∧
    partitionLines [97, 10] 1 0 = splitLines [97, 10] ∧
    ∃ i, i < 1 ∧ [97] ∈ partitionLines [97, 10] 1 i :=
  ⟨⟨by decide, by decide⟩,
   (C4_overlap_completeness [97, 10] 1 (by decide) (by decide)).1,
   (C4_overlap_completeness [97, 10] 1 (by decide) (by decide)).2 [97] (by decide)⟩

lemma run_cons (mode : HashMode) (cfg : Config) (i : Nat) (s : List Nat) :
    run mode cfg (i :: s) = run mode (stepAt mode cfg i) s := rfl

lemma run_append (mode : HashMode) (cfg : Config) (s t : List Nat) :
    run mode cfg (s ++ t) = run mode (run mode cfg s) t := by
  simp [run, List.foldl_append]

lemma stepDone0 (mode : HashMode) (ws : List (List Nat)) (ev : List (List Nat × List Nat)) :
    stepAt mode ⟨[], [⟨.checkLen, ws⟩], ev, false⟩ 0 = ⟨[], [⟨.done, ws⟩], ev, false⟩ := by
  simp [stepAt, applyWorker]

lemma stepCheck0 (mode : HashMode) (hs : List (List Nat)) (ws : List (List Nat))
    (ev : List (List Nat × List Nat)) (h : hs ≠ []) :
    stepAt mode ⟨hs, [⟨.checkLen, ws⟩], ev, false⟩ 0 = ⟨hs, [⟨.fetch, ws⟩], ev, false⟩ := by
  simp [stepAt, applyWorker, List.length_eq_zero, h]

lemma stepFetch0 (mode : HashMode) (hs : List (List Nat)) (w : List Nat)
    (ws : List (List Nat)) (ev : List (List Nat × List Nat)) :
    stepAt mode ⟨hs, [⟨.fetch, w :: ws⟩], ev, false⟩ 0 = ⟨hs, [⟨.snap w, ws⟩], ev, false⟩ := by
  simp [stepAt, applyWorker]

lemma stepSnapNone0 (mode : HashMode) (hs : List (List Nat)) (w : List Nat)
    (ws : List (List Nat)) (ev : List (List Nat × List Nat))
    (h : firstMatch w mode hs = none) :
    stepAt mode ⟨hs, [⟨.snap w, ws⟩], ev, false⟩ 0 = ⟨hs, [⟨.checkLen, ws⟩], ev, false⟩ := by
  simp [stepAt, applyWorker, h]

lemma stepSnapSome0 (mode : HashMode) (hs : List (List Nat)) (w : List Nat)
    (ws : List (List Nat)) (ev : List (List Nat × List Nat)) (idx : Nat)
    (h : firstMatch w mode hs = some idx) :
    stepAt mode ⟨hs, [⟨.snap w, ws⟩], ev, false⟩ 0 =
      ⟨hs, [⟨.removeAt idx, ws⟩], ev ++ [(hs.getD idx [], w)], false⟩ := by
  simp [stepAt, applyWorker, h]

lemma stepRemove0 (mode : HashMode) (hs : List (List Nat)) (idx : Nat)
    (ws : List (List Nat)) (ev : List (List Nat × List Nat)) (h : idx < hs.length) :
    stepAt mode ⟨hs, [⟨.removeAt idx, ws⟩], ev, false⟩ 0 =
      ⟨hs.eraseIdx idx, [⟨.checkLen, ws⟩], ev, false⟩ := by
  simp [stepAt, applyWorker, h]

lemma perm_getD_cons_eraseIdx (l : List (List Nat)) (i : Nat) (h : i < l.length) :
    l.Perm (l.getD i [] :: l.eraseIdx i) := by
  induction l generalizing i with
  | nil => simp at h
  | cons a t ih =>
    cases i with
    | zero => simp [List.eraseIdx]
    | succ i =>
      have hi : i < t.length := by simpa using h
      have h1 : (a :: t).Perm (a :: (t.getD i [] :: t.eraseIdx i)) := (ih i hi).cons a
      have h2 : (a :: (t.getD i [] :: t.eraseIdx i)).Perm
          (t.getD i [] :: a :: t.eraseIdx i) := List.Perm.swap _ _ _
      simpa [List.eraseIdx_cons_succ] using h1.trans h2

lemma not_mem_eraseIdx_of_nodup (l : List (List Nat)) (i : Nat) (h : i < l.length)
    (hn : l.Nodup) : l.getD i [] ∉ l.eraseIdx i := by
  have hp := (perm_getD_cons_eraseIdx l i h).nodup hn
  exact (List.nodup_cons.1 hp).1

/-- Single worker, top of the loop: the loop claims every outstanding
target that has a preimage somewhere in the remaining stream, printing
one match line per claimed target, and exits only when the shared
vector is empty. -/
lemma seqLoop (mode : HashMode) :
    ∀ (ws hs : List (List Nat)) (ev : List (List Nat × List Nat)),
      hs.Nodup → (∀ t ∈ hs, ∃ w ∈ ws, gen_hash w mode = t) →
      ∃ k ws2 ev2,
        run mode ⟨hs, [⟨.checkLen, ws⟩], ev, false⟩ (List.replicate k 0) =
          ⟨[], [⟨.done, ws2⟩], ev ++ ev2, false⟩ ∧ (ev2.map Prod.fst).Perm hs := by
  intro ws
  induction ws with
  | nil =>
    intro hs ev hn hcov
    cases hs with
    | nil =>
      refine ⟨1, [], [], ?_, by simp⟩
      rw [List.append_nil]
      exact stepDone0 mode [] ev
    | cons t ts =>
      obtain ⟨w, hw, _⟩ := hcov t (List.mem_cons_self t ts)
      simp at hw
  | cons w rest ih =>
    intro hs ev hn hcov
    by_cases hhs : hs = []
    · subst hhs
      refine ⟨1, w :: rest, [], ?_, by simp⟩
      rw [List.append_nil]
      exact stepDone0 mode (w :: rest) ev
    · cases hm : firstMatch w mode hs with
      | none =>
        have hcov2 : ∀ t ∈ hs, ∃ u ∈ rest, gen_hash u mode = t := by
          intro t ht
          obtain ⟨u, hu, hg⟩ := hcov t ht
          rcases List.mem_cons.1 hu with rfl | hu2
          · exact absurd hg ((firstMatch_none_iff u mode hs).1 hm t ht)
          · exact ⟨u, hu2, hg⟩
        obtain ⟨k, ws2, ev2, hrun, hperm⟩ := ih hs ev hn hcov2
        refine ⟨3 + k, ws2, ev2, ?_, hperm⟩
        rw [List.replicate_add, run_append]
        have h3 : run mode ⟨hs, [⟨.checkLen, w :: rest⟩], ev, false⟩ (List.replicate 3 0) =
            ⟨hs, [⟨.checkLen, rest⟩], ev, false⟩ := by
          show stepAt mode (stepAt mode (stepAt mode ⟨hs, [⟨.checkLen, w :: rest⟩], ev, false⟩ 0) 0) 0 = _
          rw [stepCheck0 mode hs (w :: rest) ev hhs, stepFetch0 mode hs w rest ev,
            stepSnapNone0 mode hs w rest ev hm]
        rw [h3, hrun]
      | some idx =>
        have hlt := firstMatch_some_lt w mode hs idx hm
        have hgd := firstMatch_some_getD w mode hs idx hm
        have hn2 : (hs.eraseIdx idx).Nodup := (List.eraseIdx_sublist hs idx).nodup hn
        have hnotmem := not_mem_eraseIdx_of_nodup hs idx hlt hn
        have hcov2 : ∀ t ∈ hs.eraseIdx idx, ∃ u ∈ rest, gen_hash u mode = t := by
          intro t ht
          have htin : t ∈ hs := (List.eraseIdx_sublist hs idx).subset ht
          obtain ⟨u, hu, hg⟩ := hcov t htin
          rcases List.mem_cons.1 hu with rfl | hu2
          · rw [hg] at hgd
            rw [hgd] at hnotmem
            exact absurd ht hnotmem
          · exact ⟨u, hu2, hg⟩
        obtain ⟨k, ws2, ev2, hrun, hperm⟩ :=
          ih (hs.eraseIdx idx) (ev ++ [(hs.getD idx [], w)]) hn2 hcov2
        refine ⟨4 + k, ws2, (hs.getD idx [], w) :: ev2, ?_, ?_⟩
        · rw [List.replicate_add, run_append]
          have h4 : run mode ⟨hs, [⟨.checkLen, w :: rest⟩], ev, false⟩ (List.replicate 4 0) =
              ⟨hs.eraseIdx idx, [⟨.checkLen, rest⟩], ev ++ [(hs.getD idx [], w)], false⟩ := by
            show stepAt mode (stepAt mode (stepAt mode (stepAt mode
              ⟨hs, [⟨.checkLen, w :: rest⟩], ev, false⟩ 0) 0) 0) 0 = _
            rw [stepCheck0 mode hs (w :: rest) ev hhs, stepFetch0 mode hs w rest ev,
              stepSnapSome0 mode hs w rest ev idx hm,
              stepRemove0 mode hs idx rest (ev ++ [(hs.getD idx [], w)]) hlt]
          rw [h4, hrun]
          simp
        · have hp := perm_getD_cons_eraseIdx hs idx hlt
          simp only [List.map_cons]
          exact (hperm.cons _).trans hp.symm

/-- C1, amended to a single worker: for every duplicate-free target
set in which every target has a preimage in the worker's candidate
stream, the run terminates with the shared vector empty, no panic,
exactly one match line per target (the printed digests are a
permutation of the target set), and no unresolved summary. -/
theorem C1_single_worker (mode : HashMode) (hs ws : List (List Nat))
    (hn : hs.Nodup) (hcov : ∀ t ∈ hs, ∃ w ∈ ws, gen_hash w mode = t) :
    ∃ k c, run mode (initConfig hs [ws]) (List.replicate k 0) = c ∧
      c.hashes = [] ∧ c.panicked = false ∧ allDone c = true ∧
      (c.events.map Prod.fst).Perm hs ∧ finalSummary c = none := by
  obtain ⟨k, ws2, ev2, hrun, hperm⟩ := seqLoop mode ws hs [] hn hcov
  rw [List.nil_append] at hrun
  exact ⟨k, ⟨[], [⟨.done, ws2⟩], ev2, false⟩, hrun, rfl, rfl, rfl, hperm, rfl⟩

/-- Witness for C1 (amended): one worker, target set containing only
the MD5 digest of `w`, stream containing only the candidate `w`. -/
theorem C1_single_worker_witness :
    ([md5w] : List (List Nat)).Nodup ∧
    (∀ t ∈ [md5w], ∃ w ∈ [[119]], gen_hash w .MD5 = t) ∧
    (∃ k c, run .MD5 (initConfig [md5w] [[[119]]]) (List.replicate k 0) = c ∧
      c.hashes = [] ∧ c.panicked = false ∧ allDone c = true ∧
      (c.events.map Prod.fst).Perm [md5w] ∧ finalSummary c = none) :=
  ⟨by decide, by decide, C1_single_worker .MD5 [md5w] [[119]] (by decide) (by decide)⟩

/-- C1, counterexample to the claim as stated: targets are the single
digest MD5(`w`); the wordlist file `x\nw\n` contains exactly one
preimage of it, appearing once.  With 2 workers the two byte-range
streams overlap (`S / N = 2`, worker 1 re-reads the line `w`), and
under the interleaving in which both workers snapshot the shared
vector before either removes, the run prints TWO match lines for the
one target and then panics in `Vec::remove` (stale index into the
already-emptied vector), so it does not terminate with every target
reported once and an empty unresolved set. -/
theorem C1_counterexample :
    splitLines [120, 10, 119, 10] = [[120], [119]] ∧
    gen_hash [119] .MD5 = md5w ∧ ¬gen_hash [120] .MD5 = md5w ∧
    read_hashes [md5wHex] = some [md5w] ∧
    (mainModel [md5wHex] .MD5 [120, 10, 119, 10] 2 [0, 0, 0, 0, 0, 1, 1, 1, 0, 1, 0]).map
      Config.events = some [(md5w, [119]), (md5w, [119])] ∧
    (mainModel [md5wHex] .MD5 [120, 10, 119, 10] 2 [0, 0, 0, 0, 0, 1, 1, 1, 0, 1, 0]).map
      Config.panicked = some true ∧
    (mainModel [md5wHex] .MD5 [120, 10, 119, 10] 2 [0, 0, 0, 0, 0, 1, 1, 1, 0, 1, 0]).map
      allDone = some false := by
  decide

/-- C3: the claim-and-remove is NOT a single atomic check-and-remove.
Targets are the single digest MD5(`w`); the wordlist file `w\nw\n`
holds two candidates hashing to it, split across 2 workers.  Under
the interleaving in which both workers clone the shared vector before
either writes, the run emits two match lines for the one digest (count
2, not 1), and the second stale-index `Vec::remove` panics on the
emptied vector instead of treating the candidate as a non-match. -/
theorem C3_double_report :
    read_hashes [md5wHex] = some [md5w] ∧
    splitLines [119, 10, 119, 10] = [[119], [119]] ∧
    gen_hash [119] .MD5 = md5w ∧
    (mainModel [md5wHex] .MD5 [119, 10, 119, 10] 2 [0, 0, 0, 1, 1, 1, 0, 1]).map
      Config.events = some [(md5w, [119]), (md5w, [119])] ∧
    (mainModel [md5wHex] .MD5 [119, 10, 119, 10] 2 [0, 0, 0, 1, 1, 1, 0, 1]).map
      (fun c => (c.events.map Prod.fst).count md5w) = some 2 ∧
    (mainModel [md5wHex] .MD5 [119, 10, 119, 10] 2 [0, 0, 0, 1, 1, 1, 0, 1]).map
      Config.panicked = some true := by
  decide

lemma memOfGetElemQ {α : Type} : ∀ (l : List α) (i : Nat) (a : α), l[i]? = some a → a ∈ l
  | [], _, _, h => by simp at h
  | b :: t, 0, a, h => by
    simp at h
    simp [h]
  | b :: t, i + 1, a, h => by
    simp only [List.getElem?_cons_succ] at h
    exact List.mem_cons.2 (Or.inr (memOfGetElemQ t i a h))

lemma setGetSelf {α : Type} : ∀ (l : List α) (i : Nat) (a : α), l[i]? = some a → l.set i a = l
  | [], _, _, h => by simp at h
  | b :: t, 0, a, h => by
    simp at h
    simp [h]
  | b :: t, i + 1, a, h => by
    simp only [List.getElem?_cons_succ] at h
    simp [List.set_cons_succ, setGetSelf t i a h]

lemma map_set' {α β : Type} (f : α → β) :
    ∀ (l : List α) (i : Nat) (a : α), (l.set i a).map f = (l.map f).set i (f a)
  | [], _, _ => by simp
  | b :: t, 0, a => rfl
  | b :: t, i + 1, a => by simp [List.set_cons_succ, map_set' f t i a]

/-- Worker state allowed while no candidate can ever match: at the
loop head, about to fetch, or scanning a candidate whose digest is not
in the set; and every remaining candidate in its stream misses too. -/
def workerSafe (mode : HashMode) (hs0 : List (List Nat)) (w : Worker) : Prop :=
  (w.st = WState.checkLen ∨ w.st = WState.fetch ∨
    ∃ c, w.st = WState.snap c ∧ firstMatch c mode hs0 = none) ∧
  ∀ c ∈ w.stream, firstMatch c mode hs0 = none

/-- Run invariant when the targets are disjoint from every candidate
digest: the shared vector never changes, nothing is printed, nothing
panics, and no worker ever finishes. -/
def noHitInv (mode : HashMode) (hs0 : List (List Nat)) (cfg : Config) : Prop :=
  cfg.hashes = hs0 ∧ cfg.events = [] ∧ cfg.panicked = false ∧
  ∀ w ∈ cfg.workers, workerSafe mode hs0 w

lemma noHitInv_step (mode : HashMode) (hs0 : List (List Nat)) (hne : hs0 ≠ [])
    (cfg : Config) (i : Nat) (h : noHitInv mode hs0 cfg) :
    noHitInv mode hs0 (stepAt mode cfg i) := by
  obtain ⟨hh, hev, hp, hw⟩ := h
  cases hcw : cfg.workers[i]? with
  | none =>
    have hid : stepAt mode cfg i = cfg := by simp [stepAt, hp, hcw]
    rw [hid]
    exact ⟨hh, hev, hp, hw⟩
  | some w =>
    obtain ⟨hstate, hstream⟩ := hw w (memOfGetElemQ _ i w hcw)
    rcases hstate with hcl | hf | ⟨c, hsnap, hnm⟩
    · have happ : applyWorker mode cfg.hashes w = (⟨.fetch, w.stream⟩, cfg.hashes, [], false) := by
        simp [applyWorker, hcl, hh, List.length_eq_zero, hne]
      have hstep : stepAt mode cfg i =
          ⟨cfg.hashes, cfg.workers.set i ⟨.fetch, w.stream⟩, cfg.events, false⟩ := by
        simp [stepAt, hp, hcw, happ]
      rw [hstep]
      refine ⟨hh, hev, rfl, ?_⟩
      intro w2 hw2
      rcases List.mem_or_eq_of_mem_set hw2 with hin | rfl
      · exact hw w2 hin
      · exact ⟨Or.inr (Or.inl rfl), hstream⟩
    · cases hstr : w.stream with
      | nil =>
        have happ : applyWorker mode cfg.hashes w = (⟨.checkLen, []⟩, cfg.hashes, [], false) := by
          simp [applyWorker, hf, hstr]
        have hstep : stepAt mode cfg i =
            ⟨cfg.hashes, cfg.workers.set i ⟨.checkLen, []⟩, cfg.events, false⟩ := by
          simp [stepAt, hp, hcw, happ]
        rw [hstep]
        refine ⟨hh, hev, rfl, ?_⟩
        intro w2 hw2
        rcases List.mem_or_eq_of_mem_set hw2 with hin | rfl
        · exact hw w2 hin
        · exact ⟨Or.inl rfl, by simp⟩
      | cons c rest =>
        have hcin : c ∈ w.stream := by
          rw [hstr]
          exact List.mem_cons_self c rest
        have happ : applyWorker mode cfg.hashes w = (⟨.snap c, rest⟩, cfg.hashes, [], false) := by
          simp [applyWorker, hf, hstr]
        have hstep : stepAt mode cfg i =
            ⟨cfg.hashes, cfg.workers.set i ⟨.snap c, rest⟩, cfg.events, false⟩ := by
          simp [stepAt, hp, hcw, happ]
        rw [hstep]
        refine ⟨hh, hev, rfl, ?_⟩
        intro w2 hw2
        rcases List.mem_or_eq_of_mem_set hw2 with hin | rfl
        · exact hw w2 hin
        · exact ⟨Or.inr (Or.inr ⟨c, rfl, hstream c hcin⟩),
            fun c2 hc2 => hstream c2 (by rw [hstr]; exact List.mem_cons.2 (Or.inr hc2))⟩
    · have happ : applyWorker mode cfg.hashes w = (⟨.checkLen, w.stream⟩, cfg.hashes, [], false) := by
        simp [applyWorker, hsnap, hh, hnm]
      have hstep : stepAt mode cfg i =
          ⟨cfg.hashes, cfg.workers.set i ⟨.checkLen, w.stream⟩, cfg.events, false⟩ := by
        simp [stepAt, hp, hcw, happ]
      rw [hstep]
      refine ⟨hh, hev, rfl, ?_⟩
      intro w2 hw2
      rcases List.mem_or_eq_of_mem_set hw2 with hin | rfl
      · exact hw w2 hin
      · exact ⟨Or.inl rfl, hstream⟩

lemma noHitInv_run (mode : HashMode) (hs0 : List (List Nat)) (hne : hs0 ≠ []) :
    ∀ (sched : List Nat) (cfg : Config), noHitInv mode hs0 cfg →
      noHitInv mode hs0 (run mode cfg sched) := by
  intro sched
  induction sched with
  | nil => intro cfg h; exact h
  | cons i s ih =>
    intro cfg h
    rw [run_cons]
    exact ih _ (noHitInv_step mode hs0 hne cfg i h)

lemma stepAt_workers_length (mode : HashMode) (cfg : Config) (i : Nat) :
    (stepAt mode cfg i).workers.length = cfg.workers.length := by
  by_cases hp : cfg.panicked
  · simp [stepAt, hp]
  · cases hcw : cfg.workers[i]? with
    | none => simp [stepAt, hp, hcw]
    | some w => simp [stepAt, hp, hcw]

lemma run_workers_length (mode : HashMode) :
    ∀ (sched : List Nat) (cfg : Config),
      (run mode cfg sched).workers.length = cfg.workers.length := by
  intro sched
  induction sched with
  | nil => intro cfg; rfl
  | cons i s ih =>
    intro cfg
    rw [run_cons, ih, stepAt_workers_length]

/-- C2 is false of the code: with the target set holding the digest
`aa` (which no candidate hashes to) and the wordlist `b\n` on one
worker, NO schedule ever brings the worker to `Done`: after the stream
is exhausted, `chunk.next()` keeps yielding `None` and the loop spins
(there is no exit on exhaustion), so `try_join_all` never completes,
the run hangs, and the final unresolved summary (which would have
listed the digest) is never printed.  The shared vector stays `[aa]`
and nothing is ever reported. -/
theorem C2_nontermination :
    ∀ sched : List Nat,
      mainModel [[97, 97]] .MD5 [98, 10] 1 sched =
        some (run .MD5 ⟨[[170]], [⟨.checkLen, [[98]]⟩], [], false⟩ sched) ∧
      allDone (run .MD5 ⟨[[170]], [⟨.checkLen, [[98]]⟩], [], false⟩ sched) = false ∧
      (run .MD5 ⟨[[170]], [⟨.checkLen, [[98]]⟩], [], false⟩ sched).hashes = [[170]] ∧
      (run .MD5 ⟨[[170]], [⟨.checkLen, [[98]]⟩], [], false⟩ sched).events = [] ∧
      (run .MD5 ⟨[[170]], [⟨.checkLen, [[98]]⟩], [], false⟩ sched).panicked = false := by
  intro sched
  have hinit : initConfig [[170]] (read_wordlist [98, 10] 1) =
      ⟨[[170]], [⟨.checkLen, [[98]]⟩], [], false⟩ := by decide
  have hmm : mainModel [[97, 97]] .MD5 [98, 10] 1 sched =
      some (run .MD5 ⟨[[170]], [⟨.checkLen, [[98]]⟩], [], false⟩ sched) := by
    have hload : read_hashes [[97, 97]] = some [[170]] := by decide
    simp [mainModel, hload, hinit]
  have hinv0 : noHitInv .MD5 [[170]] ⟨[[170]], [⟨.checkLen, [[98]]⟩], [], false⟩ := by
    refine ⟨rfl, rfl, rfl, ?_⟩
    intro w hw
    simp only [List.mem_singleton] at hw
    subst hw
    refine ⟨Or.inl rfl, ?_⟩
    intro c hc
    simp only [List.mem_singleton] at hc
    subst hc
    decide
  have hne : ([[170]] : List (List Nat)) ≠ [] := by simp
  obtain ⟨hh, hev, hp, hwv⟩ := noHitInv_run .MD5 [[170]] hne sched _ hinv0
  refine ⟨hmm, ?_, hh, hev, hp⟩
  have hlen : (run .MD5 ⟨[[170]], [⟨.checkLen, [[98]]⟩], [], false⟩ sched).workers.length = 1 :=
    run_workers_length .MD5 sched _
  cases hcw : (run .MD5 ⟨[[170]], [⟨.checkLen, [[98]]⟩], [], false⟩ sched).workers with
  | nil => rw [hcw] at hlen; simp at hlen
  | cons w ws =>
    have hsafe := hwv w (by rw [hcw]; exact List.mem_cons_self w ws)
    rcases hsafe.1 with h1 | h1 | ⟨c, h1, _⟩ <;> simp [allDone, hcw, h1]

/-- Run invariant when the target set loads empty: nothing is hashed,
no candidate is consumed, nothing is printed, and each worker is
either at its initial loop head or already done. -/
def emptyInv (streams : List (List (List Nat))) (cfg : Config) : Prop :=
  cfg.hashes = [] ∧ cfg.events = [] ∧ cfg.panicked = false ∧
  cfg.workers.map Worker.stream = streams ∧
  ∀ w ∈ cfg.workers, w.st = WState.checkLen ∨ w.st = WState.done

lemma emptyInv_step (mode : HashMode) (streams : List (List (List Nat)))
    (cfg : Config) (i : Nat) (h : emptyInv streams cfg) :
    emptyInv streams (stepAt mode cfg i) := by
  obtain ⟨hh, hev, hp, hmap, hst⟩ := h
  cases hcw : cfg.workers[i]? with
  | none =>
    have hid : stepAt mode cfg i = cfg := by simp [stepAt, hp, hcw]
    rw [hid]
    exact ⟨hh, hev, hp, hmap, hst⟩
  | some w =>
    have hwmem := memOfGetElemQ _ i w hcw
    rcases hst w hwmem with hcl | hdn
    · have happ : applyWorker mode cfg.hashes w = (⟨.done, w.stream⟩, cfg.hashes, [], false) := by
        simp [applyWorker, hcl, hh]
      have hstep : stepAt mode cfg i =
          ⟨cfg.hashes, cfg.workers.set i ⟨.done, w.stream⟩, cfg.events, false⟩ := by
        simp [stepAt, hp, hcw, happ]
      rw [hstep]
      refine ⟨hh, hev, rfl, ?_, ?_⟩
      · rw [map_set' Worker.stream]
        have hg : (cfg.workers.map Worker.stream)[i]? = some w.stream := by
          rw [List.getElem?_map, hcw]
          rfl
        rw [setGetSelf _ i _ hg, hmap]
      · intro w2 hw2
        rcases List.mem_or_eq_of_mem_set hw2 with hin | rfl
        · exact hst w2 hin
        · exact Or.inr rfl
    · have happ : applyWorker mode cfg.hashes w = (w, cfg.hashes, [], false) := by
        simp [applyWorker, hdn]
      have hstep : stepAt mode cfg i =
          ⟨cfg.hashes, cfg.workers.set i w, cfg.events, false⟩ := by
        simp [stepAt, hp, hcw, happ]
      rw [hstep]
      refine ⟨hh, hev, rfl, ?_, ?_⟩
      · rw [setGetSelf _ i w hcw, hmap]
      · intro w2 hw2
        rcases List.mem_or_eq_of_mem_set hw2 with hin | rfl
        · exact hst w2 hin
        · exact Or.inr hdn

lemma emptyInv_run (mode : HashMode) (streams : List (List (List Nat))) :
    ∀ (sched : List Nat) (cfg : Config), emptyInv streams cfg →
      emptyInv streams (run mode cfg sched) := by
  intro sched
  induction sched with
  | nil => intro cfg h; exact h
  | cons i s ih =>
    intro cfg h
    rw [run_cons]
    exact ih _ (emptyInv_step mode streams cfg i h)

lemma getElemQ_append_len {α : Type} :
    ∀ (pre : List α) (a : α) (rest : List α), (pre ++ a :: rest)[pre.length]? = some a
  | [], _, _ => by simp
  | b :: pre, a, rest => by
    simp only [List.cons_append, List.length_cons, List.getElem?_cons_succ]
    exact getElemQ_append_len pre a rest

lemma set_append_len {α : Type} :
    ∀ (pre : List α) (a b : α) (rest : List α),
      (pre ++ a :: rest).set pre.length b = pre ++ b :: rest
  | [], _, _, _ => rfl
  | c :: pre, a, b, rest => by
    simp only [List.cons_append, List.length_cons, List.set_cons_succ]
    rw [set_append_len pre a b rest]

/-- Scheduling each still-starting worker once, left to right, drives
every worker from the loop head to done when the target vector is
empty. -/
lemma doneAfterSeq (mode : HashMode) :
    ∀ (rest pre : List Worker), (∀ w ∈ rest, w.st = WState.checkLen) →
      run mode ⟨[], pre ++ rest, [], false⟩ ((List.range rest.length).map (· + pre.length)) =
        ⟨[], pre ++ rest.map (fun w => ⟨WState.done, w.stream⟩), [], false⟩ := by
  intro rest
  induction rest with
  | nil =>
    intro pre h
    simp [run]
  | cons w rest ih =>
    intro pre h
    have hr : (List.range (w :: rest).length).map (· + pre.length) =
        pre.length :: (List.range rest.length).map (· + (pre.length + 1)) := by
      simp only [List.length_cons, List.range_succ_eq_map, List.map_cons, Nat.zero_add,
        List.map_map]
      have hfun : ((fun x => x + pre.length) ∘ Nat.succ) = fun x => x + (pre.length + 1) := by
        funext k
        simp [Function.comp]
        omega
      rw [hfun]
    rw [hr, run_cons]
    have hstep : stepAt mode ⟨[], pre ++ w :: rest, [], false⟩ pre.length =
        ⟨[], pre ++ ⟨WState.done, w.stream⟩ :: rest, [], false⟩ := by
      have h1 := getElemQ_append_len pre w rest
      have h2 : w.st = WState.checkLen := h w (List.mem_cons_self w rest)
      simp [stepAt, h1, applyWorker, h2, set_append_len]
    rw [hstep]
    have hIH := ih (pre ++ [⟨WState.done, w.stream⟩])
      (fun w2 hw2 => h w2 (List.mem_cons.2 (Or.inr hw2)))
    simp only [List.length_append, List.length_cons, List.length_nil, Nat.zero_add,
      List.append_assoc, List.cons_append, List.nil_append] at hIH
    exact hIH

/-- C9: when the loaded target set is empty, every worker exits at its
first loop-head check without pulling or hashing any candidate: under
every schedule nothing is printed, no stream is consumed and no panic
occurs; scheduling each worker once ends the run with every worker
done; and the final pass prints no unresolved-digest summary. -/
theorem C9_empty_targets (mode : HashMode) (streams : List (List (List Nat))) :
    (∀ sched,
      (run mode (initConfig [] streams) sched).events = [] ∧
      (run mode (initConfig [] streams) sched).hashes = [] ∧
      (run mode (initConfig [] streams) sched).workers.map Worker.stream = streams ∧
      (run mode (initConfig [] streams) sched).panicked = false ∧
      finalSummary (run mode (initConfig [] streams) sched) = none) ∧
    allDone (run mode (initConfig [] streams) (List.range streams.length)) = true := by
  have hinv0 : emptyInv streams (initConfig [] streams) := by
    refine ⟨rfl, rfl, rfl, ?_, ?_⟩
    · show (streams.map fun s => (⟨WState.checkLen, s⟩ : Worker)).map Worker.stream = streams
      rw [List.map_map]
      have hfun : (Worker.stream ∘ fun s => (⟨WState.checkLen, s⟩ : Worker)) = id := by
        funext s
        rfl
      rw [hfun, List.map_id]
    · intro w hw
      simp only [initConfig, List.mem_map] at hw
      obtain ⟨s, _, rfl⟩ := hw
      exact Or.inl rfl
  constructor
  · intro sched
    obtain ⟨hh, hev, hp, hmap, hst⟩ := emptyInv_run mode streams sched _ hinv0
    exact ⟨hev, hh, hmap, hp, by simp [finalSummary, hh]⟩
  · have hstreams : ∀ w ∈ streams.map (fun s => (⟨WState.checkLen, s⟩ : Worker)),
        w.st = WState.checkLen := by
      intro w hw
      simp only [List.mem_map] at hw
      obtain ⟨s, _, rfl⟩ := hw
      rfl
    have h := doneAfterSeq mode (streams.map (fun s => ⟨WState.checkLen, s⟩)) [] hstreams
    simp only [List.nil_append, List.length_nil, Nat.add_zero, List.length_map] at h
    have hid : List.map (fun x : Nat => x) (List.range streams.length) =
        List.range streams.length := by
      simp
    rw [hid] at h
    show allDone (run mode ⟨[], streams.map (fun s => ⟨WState.checkLen, s⟩), [], false⟩
      (List.range streams.length)) = true
    rw [h]
    simp only [allDone, List.all_eq_true, List.map_map]
    intro w hw
    simp only [List.mem_map] at hw
    obtain ⟨s, _, rfl⟩ := hw
    rfl

end Scream
